import Mathlib

/-!
Shallow embedding of the clarity-backend transaction store (`app/crud.py`,
`app/main.py`, `app/schemas.py`, `app/database.py`).

The database is modelled as an explicit list of rows; every repository
operation from `crud.py` becomes a pure function on that list, with mutating
operations returning the new list.  Monetary amounts (Python floats holding
currency values) are modelled as exact rationals; datetimes are modelled at
day granularity as a count of days since the Unix epoch, with the calendar
conversion used by `strftime` spelled out below.
-/

namespace Clarity

/-- Days since 1970-01-01; `timedelta` of `n` days is addition of `n`. -/
abbrev DateTime := Int

/-- Row of the `transactions` table (`app/database.py`). -/
structure Transaction where
  id : Nat
  amount : ℚ
  category : String
  description : Option String
  transaction_type : String
  date : DateTime
  created_at : DateTime
  user_id : Nat
deriving DecidableEq, Repr

/-- Row of the `users` table (`app/database.py`). -/
structure User where
  id : Nat
  email : String
  hashed_password : String
  full_name : String
  is_active : Bool
  created_at : DateTime
deriving DecidableEq, Repr

/-- `schemas.TransactionUpdate`: every field optional; a `none` field was not
sent by the caller (`model_dump` with unset fields excluded drops it). -/
structure TransactionUpdate where
  amount : Option ℚ := none
  category : Option String := none
  description : Option (Option String) := none
  transaction_type : Option String := none
  date : Option DateTime := none
deriving DecidableEq, Repr

/-- The empty patch: no field supplied. -/
def TransactionUpdate.empty : TransactionUpdate := {}

/-- `schemas.DashboardStats`. -/
structure DashboardStats where
  total_income : ℚ
  total_expenses : ℚ
  balance : ℚ
  transaction_count : Nat
deriving DecidableEq, Repr

/-- `schemas.CategoryBreakdown`. -/
structure CategoryBreakdown where
  category : String
  total : ℚ
  percentage : ℚ
deriving DecidableEq, Repr

/-- `schemas.MonthlyData`. -/
structure MonthlyData where
  month : String
  income : ℚ
  expenses : ℚ
deriving DecidableEq, Repr

/-- `crud.get_transaction`: the query filters on both the primary key and the
owner, and `.first()` takes the first match. -/
def get_transaction (db : List Transaction) (transaction_id : Nat) (user_id : Nat) :
    Option Transaction :=
  db.find? (fun t => t.id == transaction_id && t.user_id == user_id)

/-- Descending occurrence-date order used by `crud.get_transactions`. -/
def dateDesc (a b : Transaction) : Prop := b.date ≤ a.date

instance : DecidableRel dateDesc := fun a b => inferInstanceAs (Decidable (b.date ≤ a.date))

instance : IsTotal Transaction dateDesc := ⟨fun a b => le_total b.date a.date⟩

instance : IsTrans Transaction dateDesc := ⟨fun _ _ _ hab hbc => le_trans hbc hab⟩

/-- The source line `if category: query = query.filter(Transaction.category == category)`.
Python truthiness makes both `None` and the empty string skip the filter. -/
def applyCategoryFilter (category : Option String) (q : List Transaction) : List Transaction :=
  match category with
  | some c => if c = "" then q else q.filter (fun t => t.category == c)
  | none => q

/-- The source line guarding on `transaction_type`, with the same truthiness. -/
def applyTypeFilter (transaction_type : Option String) (q : List Transaction) :
    List Transaction :=
  match transaction_type with
  | some ty => if ty = "" then q else q.filter (fun t => t.transaction_type == ty)
  | none => q

/-- The source line `if start_date: query = query.filter(Transaction.date >= start_date)`;
a datetime is always truthy, so only `None` skips the filter. -/
def applyStartFilter (start_date : Option DateTime) (q : List Transaction) :
    List Transaction :=
  match start_date with
  | some d => q.filter (fun t => decide (d ≤ t.date))
  | none => q

/-- The source line `if end_date: query = query.filter(Transaction.date <= end_date)`. -/
def applyEndFilter (end_date : Option DateTime) (q : List Transaction) : List Transaction :=
  match end_date with
  | some d => q.filter (fun t => decide (t.date ≤ d))
  | none => q

/-- `crud.get_transactions`: owner scope, then the four optional filters in
source order, then order by date descending with offset/limit. -/
def get_transactions (db : List Transaction) (user_id : Nat)
    (skip : Nat := 0) (limit : Nat := 100)
    (category : Option String := none) (transaction_type : Option String := none)
    (start_date : Option DateTime := none) (end_date : Option DateTime := none) :
    List Transaction :=
  let q := applyEndFilter end_date (applyStartFilter start_date
    (applyTypeFilter transaction_type
      (applyCategoryFilter category (db.filter (fun t => t.user_id == user_id)))))
  ((q.insertionSort dateDesc).drop skip).take limit

/-- Application of a `TransactionUpdate` patch: each supplied field overwrites,
each absent field is kept (`setattr` over `model_dump` with unset excluded). -/
def applyUpdate (t : Transaction) (u : TransactionUpdate) : Transaction :=
  { t with
    amount := u.amount.getD t.amount
    category := u.category.getD t.category
    description := u.description.getD t.description
    transaction_type := u.transaction_type.getD t.transaction_type
    date := u.date.getD t.date }

/-- `crud.update_transaction`: fetch through the owner-scoped lookup; on a miss
return `none` leaving the table unchanged, otherwise patch the fetched row (the
row with its primary key) in place. -/
def update_transaction (db : List Transaction) (transaction_id : Nat)
    (transaction_update : TransactionUpdate) (user_id : Nat) :
    Option Transaction × List Transaction :=
  match get_transaction db transaction_id user_id with
  | none => (none, db)
  | some t =>
    let t2 := applyUpdate t transaction_update
    (some t2, db.map (fun u => if u.id = t.id then t2 else u))

/-- `crud.delete_transaction`: fetch through the owner-scoped lookup; on a miss
return `none` leaving the table unchanged, otherwise remove the row with the
fetched primary key and return it. -/
def delete_transaction (db : List Transaction) (transaction_id : Nat) (user_id : Nat) :
    Option Transaction × List Transaction :=
  match get_transaction db transaction_id user_id with
  | none => (none, db)
  | some t => (some t, db.filter (fun u => !(u.id == t.id)))

/-- `crud.get_dashboard_stats`: sums over the owner's rows, split by exact
string comparison of the type; count is all of the owner's rows. -/
def get_dashboard_stats (db : List Transaction) (user_id : Nat) : DashboardStats :=
  let transactions := db.filter (fun t => t.user_id == user_id)
  let total_income :=
    ((transactions.filter (fun t => t.transaction_type == "income")).map (fun t => t.amount)).sum
  let total_expenses :=
    ((transactions.filter (fun t => t.transaction_type == "expense")).map (fun t => t.amount)).sum
  { total_income, total_expenses,
    balance := total_income - total_expenses,
    transaction_count := transactions.length }

/-- Round-half-to-even on rationals, the behaviour of Python's built-in
`round` on the quotient values fed to it. -/
def bankersRound (q : ℚ) : ℤ :=
  let f := ⌊q⌋
  if q - f < 1 / 2 then f
  else if 1 / 2 < q - f then f + 1
  else if f % 2 = 0 then f else f + 1

/-- `round(x, 2)`: scale by 100, round to an integer, scale back. -/
def round2 (q : ℚ) : ℚ := (bankersRound (q * 100) : ℚ) / 100

/-- One step of SQL `GROUP BY category, SUM(amount)`: add an amount into the
group list, starting a new group on a fresh category. -/
def addGroup (acc : List (String × ℚ)) (cat : String) (amt : ℚ) : List (String × ℚ) :=
  match acc with
  | [] => [(cat, amt)]
  | (c, s) :: rest =>
    if c = cat then (c, s + amt) :: rest else (c, s) :: addGroup rest cat amt

/-- `GROUP BY category` with per-group `SUM(amount)`, groups in first-appearance
order (the grouping order of the source query is unspecified). -/
def groupSums (ts : List Transaction) : List (String × ℚ) :=
  ts.foldl (fun acc t => addGroup acc t.category t.amount) []

/-- `crud.get_category_breakdown`: group the owner's rows of the given type by
category; each percentage is the rounded share of the grand total when that
total is positive, and `0` otherwise (the source tests `total > 0`). -/
def get_category_breakdown (db : List Transaction) (user_id : Nat)
    (transaction_type : String) : List CategoryBreakdown :=
  let results := groupSums (db.filter
    (fun t => t.user_id == user_id && t.transaction_type == transaction_type))
  let total := (results.map (fun r => r.2)).sum
  results.map (fun r =>
    { category := r.1, total := r.2,
      percentage := if 0 < total then round2 (r.2 / total * 100) else 0 })

/-- Gregorian civil date (year, month, day) of a day count since 1970-01-01,
as computed by the datetime library for `strftime`. -/
def civilFromDays (z : Int) : Int × Nat × Nat :=
  let z2 := z + 719468
  let era : Int := (if 0 ≤ z2 then z2 else z2 - 146096) / 146097
  let doe : Nat := (z2 - era * 146097).toNat
  let yoe : Nat := (doe - doe / 1460 + doe / 36524 - doe / 146096) / 365
  let y : Int := (yoe : Int) + era * 400
  let doy : Nat := doe - (365 * yoe + yoe / 4 - yoe / 100)
  let mp : Nat := (5 * doy + 2) / 153
  let d : Nat := doy - (153 * mp + 2) / 5 + 1
  let m : Nat := if mp < 10 then mp + 3 else mp - 9
  (if m ≤ 2 then y + 1 else y, m, d)

/-- Zero-padded two-digit month, as in `strftime("%m")`. -/
def pad2 (n : Nat) : String := if n < 10 then "0" ++ toString n else toString n

/-- Zero-padded four-digit year, as in `strftime("%Y")`. -/
def pad4 (y : Int) : String :=
  if y < 0 then toString y
  else if y < 10 then "000" ++ toString y
  else if y < 100 then "00" ++ toString y
  else if y < 1000 then "0" ++ toString y
  else toString y

/-- `t.date.strftime("%Y-%m")`, the monthly bucket key. -/
def monthKey (d : DateTime) : String :=
  let c := civilFromDays d
  pad4 c.1 ++ "-" ++ pad2 c.2.1

/-- One dict update of `crud.get_monthly_summary`: create the bucket on first
sight, then add the amount to `income` when the type is exactly `income` and to
`expenses` in every other case. -/
def addMonthly (acc : List (String × ℚ × ℚ)) (key : String) (t : Transaction) :
    List (String × ℚ × ℚ) :=
  match acc with
  | [] => [(key, if t.transaction_type = "income" then (t.amount, 0) else ((0 : ℚ), t.amount))]
  | (k, v) :: rest =>
    if k = key then
      (k, if t.transaction_type = "income" then (v.1 + t.amount, v.2) else (v.1, v.2 + t.amount))
        :: rest
    else (k, v) :: addMonthly rest key t

/-- The `monthly_data` dict of `crud.get_monthly_summary` in insertion order. -/
def buildMonthly (ts : List Transaction) : List (String × ℚ × ℚ) :=
  ts.foldl (fun acc t => addMonthly acc (monthKey t.date) t) []

/-- Ascending month-key order used by `sorted(monthly_data.items())` (keys are
distinct, so only the key part of the tuple decides). -/
def keyLe (a b : String × ℚ × ℚ) : Prop := a.1 ≤ b.1

instance : DecidableRel keyLe := fun a b => inferInstanceAs (Decidable (a.1 ≤ b.1))

instance : IsTotal (String × ℚ × ℚ) keyLe := ⟨fun a b => le_total a.1 b.1⟩

instance : IsTrans (String × ℚ × ℚ) keyLe := ⟨fun _ _ _ hab hbc => le_trans hab hbc⟩

/-- `crud.get_monthly_summary`: keep the owner's rows dated within the last
`months * 30` days ending at `now` (both bounds inclusive), bucket them by
month key, and emit the buckets sorted ascending by key. -/
def get_monthly_summary (db : List Transaction) (user_id : Nat) (now : DateTime)
    (months : Nat := 6) : List MonthlyData :=
  let start_date := now - 30 * (months : Int)
  let ts := db.filter (fun t =>
    t.user_id == user_id && decide (start_date ≤ t.date) && decide (t.date ≤ now))
  ((buildMonthly ts).insertionSort keyLe).map (fun e => ⟨e.1, e.2.1, e.2.2⟩)

/-- Modelled from the spec: the hashing primitive lives in `app/auth.py`, which
is absent from the sources.  The spec asks only that verification accept
exactly the hashed password, so hashing is modelled as injective tagging. -/
def get_password_hash (password : String) : String := "hashed:" ++ password

/-- Modelled from the spec: `verify(password, hash)` succeeds exactly when the
hash was produced from this password. -/
def verify_password (password stored : String) : Bool := stored == get_password_hash password

/-- Modelled from the spec: token issuance (`app/auth.py` is absent); the token
encodes the identity, which is the email. -/
def create_access_token (email : String) : String := "token:" ++ email

/-- `crud.get_user_by_email`: first row matching the email. -/
def get_user_by_email (db : List User) (email : String) : Option User :=
  db.find? (fun u => u.email == email)

/-- `crud.create_user`: persist a new user row with the hashed password; the
generated primary key and creation instant arrive as explicit parameters. -/
def create_user (db : List User) (email full_name password : String)
    (fresh_id : Nat) (now : DateTime) : User × List User :=
  let u : User := { id := fresh_id, email, hashed_password := get_password_hash password,
                    full_name, is_active := true, created_at := now }
  (u, db ++ [u])

/-- `main.signup`: reject with 400 when the email is already registered,
otherwise create the account. -/
def signup (db : List User) (email full_name password : String)
    (fresh_id : Nat) (now : DateTime) : Except Nat User × List User :=
  match get_user_by_email db email with
  | some _ => (Except.error 400, db)
  | none =>
    let r := create_user db email full_name password fresh_id now
    (Except.ok r.1, r.2)

/-- `crud.authenticate_user`: look the user up by email, then check the
password against the stored hash. -/
def authenticate_user (db : List User) (email password : String) : Option User :=
  match get_user_by_email db email with
  | none => none
  | some u => if verify_password password u.hashed_password then some u else none

/-- `main.login`: 401 unless authentication succeeds, else a bearer token. -/
def login (db : List User) (email password : String) : Except Nat String :=
  match authenticate_user db email password with
  | none => Except.error 401
  | some u => Except.ok (create_access_token u.email)

/-- The listing filter exactly as the spec words it: ownership, category
equality, type equality, and an occurrence-date range inclusive at both ends,
each applied only when the corresponding argument is supplied. -/
def matchesFilters (user_id : Nat) (category transaction_type : Option String)
    (start_date end_date : Option DateTime) (t : Transaction) : Bool :=
  t.user_id == user_id
    && (match category with | some c => t.category == c | none => true)
    && (match transaction_type with | some ty => t.transaction_type == ty | none => true)
    && (match start_date with | some d => decide (d ≤ t.date) | none => true)
    && (match end_date with | some d => decide (t.date ≤ d) | none => true)

/-- Sum of the group totals recorded under category `c` (with distinct keys,
the value stored for `c`). -/
def catSum (acc : List (String × ℚ)) (c : String) : ℚ :=
  ((acc.filter (fun r => r.1 == c)).map (fun r => r.2)).sum

/-- The `total` used as the percentage denominator in
`crud.get_category_breakdown`: sum of all group totals. -/
def categoryGrandTotal (db : List Transaction) (uid : Nat) (ttype : String) : ℚ :=
  ((groupSums (db.filter (fun t => t.user_id == uid && t.transaction_type == ttype))).map
    (fun r => r.2)).sum

/-- Income recorded under month key `k` in the monthly dict. -/
def keyIncome (acc : List (String × ℚ × ℚ)) (k : String) : ℚ :=
  ((acc.filter (fun e => e.1 == k)).map (fun e => e.2.1)).sum

/-- Expenses recorded under month key `k` in the monthly dict. -/
def keyExpense (acc : List (String × ℚ × ℚ)) (k : String) : ℚ :=
  ((acc.filter (fun e => e.1 == k)).map (fun e => e.2.2)).sum

/-! ### Shared lemmas -/

/-- Primary-key uniqueness: in a table whose ids are `Nodup`, two rows with
the same id coincide. -/
theorem row_eq_of_id_eq {db : List Transaction} (hids : (db.map Transaction.id).Nodup)
    {a b : Transaction} (ha : a ∈ db) (hb : b ∈ db) (h : a.id = b.id) : a = b :=
  List.inj_on_of_nodup_map hids ha hb h

/-- `find?` returns the unique element satisfying the predicate. -/
theorem find_eq_some_of_unique {α : Type} {p : α → Bool} {l : List α} {a : α}
    (hmem : a ∈ l) (hpa : p a = true) (huniq : ∀ x ∈ l, p x = true → x = a) :
    l.find? p = some a := by
  induction l with
  | nil => cases hmem
  | cons b l ih =>
    by_cases hb : p b = true
    · have hba : b = a := huniq b (List.mem_cons_self b l) hb
      rw [List.find?_cons_of_pos _ hb, hba]
    · rw [List.find?_cons_of_neg _ (by simpa using hb)]
      rcases List.mem_cons.mp hmem with h | h
      · exact absurd (h ▸ hpa) hb
      · exact ih h (fun x hx => huniq x (List.mem_cons_of_mem b hx))

/-- An owner-scoped lookup by another user misses. -/
theorem get_transaction_eq_none {db : List Transaction} {tx : Transaction} {uid : Nat}
    (hids : (db.map Transaction.id).Nodup) (hmem : tx ∈ db) (hown : tx.user_id ≠ uid) :
    get_transaction db tx.id uid = none := by
  unfold get_transaction
  rw [List.find?_eq_none]
  intro x hx hpx
  simp only [Bool.and_eq_true, beq_iff_eq] at hpx
  obtain ⟨h1, h2⟩ := hpx
  have hx_eq : x = tx := row_eq_of_id_eq hids hx hmem h1
  exact hown (hx_eq ▸ h2)

/-- The owner-scoped lookup of an owned row finds exactly that row. -/
theorem get_transaction_eq_some {db : List Transaction} {tx : Transaction} {uid : Nat}
    (hids : (db.map Transaction.id).Nodup) (hmem : tx ∈ db) (hown : tx.user_id = uid) :
    get_transaction db tx.id uid = some tx := by
  unfold get_transaction
  refine find_eq_some_of_unique hmem (by simp [hown]) ?_
  intro x hx hpx
  simp only [Bool.and_eq_true, beq_iff_eq] at hpx
  exact row_eq_of_id_eq hids hx hmem hpx.1

theorem applyCategoryFilter_sublist (o : Option String) (q : List Transaction) :
    (applyCategoryFilter o q).Sublist q := by
  rcases o with _ | c
  · exact List.Sublist.refl q
  · unfold applyCategoryFilter
    by_cases h : c = ""
    · simp [h]
    · simp [h, List.filter_sublist]

theorem applyTypeFilter_sublist (o : Option String) (q : List Transaction) :
    (applyTypeFilter o q).Sublist q := by
  rcases o with _ | c
  · exact List.Sublist.refl q
  · unfold applyTypeFilter
    by_cases h : c = ""
    · simp [h]
    · simp [h, List.filter_sublist]

theorem applyStartFilter_sublist (o : Option DateTime) (q : List Transaction) :
    (applyStartFilter o q).Sublist q := by
  rcases o with _ | d
  · exact List.Sublist.refl q
  · exact List.filter_sublist q

theorem applyEndFilter_sublist (o : Option DateTime) (q : List Transaction) :
    (applyEndFilter o q).Sublist q := by
  rcases o with _ | d
  · exact List.Sublist.refl q
  · exact List.filter_sublist q

/-- Every listed transaction is a row of the table owned by the requester. -/
theorem mem_get_transactions {db : List Transaction} {uid skip limit : Nat}
    {category transaction_type : Option String} {start_date end_date : Option DateTime}
    {t : Transaction}
    (h : t ∈ get_transactions db uid skip limit category transaction_type start_date end_date) :
    t ∈ db ∧ t.user_id = uid := by
  unfold get_transactions at h
  have h1 := (List.drop_sublist _ _).mem ((List.take_sublist _ _).mem h)
  rw [List.mem_insertionSort] at h1
  have h2 := (applyStartFilter_sublist _ _).mem ((applyEndFilter_sublist _ _).mem h1)
  have h3 := (applyCategoryFilter_sublist _ _).mem ((applyTypeFilter_sublist _ _).mem h2)
  rw [List.mem_filter] at h3
  exact ⟨h3.1, by simpa using h3.2⟩

/-- Erasing other users' rows first does not change the dashboard totals. -/
theorem dashboard_user_scope (db : List Transaction) (A : Nat) :
    get_dashboard_stats (db.filter (fun t => t.user_id == A)) A = get_dashboard_stats db A := by
  have hfe : db.filter (fun t => (t.user_id == A) && (t.user_id == A))
      = db.filter (fun t => t.user_id == A) :=
    List.filter_congr (fun x _ => Bool.and_self (x.user_id == A))
  simp only [get_dashboard_stats, List.filter_filter, hfe]

/-- Erasing other users' rows first does not change the category breakdown. -/
theorem breakdown_user_scope (db : List Transaction) (A : Nat) (ttype : String) :
    get_category_breakdown (db.filter (fun t => t.user_id == A)) A ttype
      = get_category_breakdown db A ttype := by
  have hfe : db.filter (fun t => (t.user_id == A && t.transaction_type == ttype)
        && (t.user_id == A))
      = db.filter (fun t => t.user_id == A && t.transaction_type == ttype) :=
    List.filter_congr (fun x _ => by
      cases h : x.user_id == A <;> cases h2 : x.transaction_type == ttype <;> simp [h, h2])
  simp only [get_category_breakdown, List.filter_filter, hfe]

/-- Erasing other users' rows first does not change the monthly summary. -/
theorem monthly_user_scope (db : List Transaction) (A : Nat) (now : DateTime) (months : Nat) :
    get_monthly_summary (db.filter (fun t => t.user_id == A)) A now months
      = get_monthly_summary db A now months := by
  have hfe : db.filter (fun t =>
        (t.user_id == A && decide (now - 30 * (months : Int) ≤ t.date) && decide (t.date ≤ now))
          && (t.user_id == A))
      = db.filter (fun t =>
        t.user_id == A && decide (now - 30 * (months : Int) ≤ t.date) && decide (t.date ≤ now)) :=
    List.filter_congr (fun x _ => by
      cases h : x.user_id == A <;>
        cases h2 : decide (now - 30 * (months : Int) ≤ x.date) <;>
          cases h3 : decide (x.date ≤ now) <;> simp [h, h2, h3])
  simp only [get_monthly_summary, List.filter_filter, hfe]

/-! ### Claims -/

/-- C1: for distinct users A and B and a transaction owned by B, `get`,
`update` and `delete` issued by A on that transaction's id all return absent
and leave the table unchanged; no listing for A contains B's transaction, and
every aggregation for A is already determined by A's own rows alone. -/
theorem c1_owner_isolation (db : List Transaction) (A : Nat) (tx : Transaction)
    (patch : TransactionUpdate) (skip limit : Nat)
    (category transaction_type : Option String) (start_date end_date : Option DateTime)
    (breakdown_type : String) (now : DateTime) (months : Nat)
    (hids : (db.map Transaction.id).Nodup) (hmem : tx ∈ db) (hown : tx.user_id ≠ A) :
    get_transaction db tx.id A = none
    ∧ update_transaction db tx.id patch A = (none, db)
    ∧ delete_transaction db tx.id A = (none, db)
    ∧ tx ∉ get_transactions db A skip limit category transaction_type start_date end_date
    ∧ get_dashboard_stats (db.filter (fun t => t.user_id == A)) A = get_dashboard_stats db A
    ∧ get_category_breakdown (db.filter (fun t => t.user_id == A)) A breakdown_type
        = get_category_breakdown db A breakdown_type
    ∧ get_monthly_summary (db.filter (fun t => t.user_id == A)) A now months
        = get_monthly_summary db A now months := by
  have hnone := get_transaction_eq_none hids hmem hown
  refine ⟨hnone, ?_, ?_, ?_, dashboard_user_scope db A, breakdown_user_scope db A breakdown_type,
    monthly_user_scope db A now months⟩
  · unfold update_transaction
    rw [hnone]
  · unfold delete_transaction
    rw [hnone]
  · intro hmem2
    exact hown (mem_get_transactions hmem2).2

/-- C2: the dashboard reports the owner's income-typed sum, expense-typed sum,
their difference as the balance, and the count of all of the owner's rows. -/
theorem c2_dashboard_stats (db : List Transaction) (uid : Nat) :
    (get_dashboard_stats db uid).total_income =
      ((db.filter (fun t => t.user_id == uid && t.transaction_type == "income")).map
        (fun t => t.amount)).sum
    ∧ (get_dashboard_stats db uid).total_expenses =
      ((db.filter (fun t => t.user_id == uid && t.transaction_type == "expense")).map
        (fun t => t.amount)).sum
    ∧ (get_dashboard_stats db uid).balance =
      (get_dashboard_stats db uid).total_income - (get_dashboard_stats db uid).total_expenses
    ∧ (get_dashboard_stats db uid).transaction_count =
      (db.filter (fun t => t.user_id == uid)).length := by
  have hinc : db.filter (fun t => (t.transaction_type == "income") && (t.user_id == uid))
      = db.filter (fun t => t.user_id == uid && t.transaction_type == "income") :=
    List.filter_congr (fun x _ => Bool.and_comm _ _)
  have hexp : db.filter (fun t => (t.transaction_type == "expense") && (t.user_id == uid))
      = db.filter (fun t => t.user_id == uid && t.transaction_type == "expense") :=
    List.filter_congr (fun x _ => Bool.and_comm _ _)
  refine ⟨?_, ?_, rfl, rfl⟩ <;>
    simp only [get_dashboard_stats, List.filter_filter, hinc, hexp]

/-- C9: an empty-string category or type filter behaves exactly as an omitted
filter (Python truthiness skips the corresponding `query.filter`). -/
theorem c9_empty_string_filter (db : List Transaction) (uid skip limit : Nat)
    (category transaction_type : Option String) (start_date end_date : Option DateTime) :
    get_transactions db uid skip limit (some "") transaction_type start_date end_date
      = get_transactions db uid skip limit none transaction_type start_date end_date
    ∧ get_transactions db uid skip limit category (some "") start_date end_date
      = get_transactions db uid skip limit category none start_date end_date := by
  constructor <;> simp [get_transactions, applyCategoryFilter, applyTypeFilter]

/-- C5: updating an owned transaction patches exactly the supplied fields of
that row (each missing field keeps its prior value, the id, owner and creation
timestamp are never touched), and the empty patch returns the record unchanged
and leaves the table identical. -/
theorem c5_partial_update (db : List Transaction) (tx : Transaction) (uid : Nat)
    (patch : TransactionUpdate)
    (hids : (db.map Transaction.id).Nodup) (hmem : tx ∈ db) (hown : tx.user_id = uid) :
    update_transaction db tx.id patch uid
      = (some (applyUpdate tx patch),
         db.map (fun u => if u.id = tx.id then applyUpdate tx patch else u))
    ∧ (applyUpdate tx patch).amount = patch.amount.getD tx.amount
    ∧ (applyUpdate tx patch).category = patch.category.getD tx.category
    ∧ (applyUpdate tx patch).description = patch.description.getD tx.description
    ∧ (applyUpdate tx patch).transaction_type = patch.transaction_type.getD tx.transaction_type
    ∧ (applyUpdate tx patch).date = patch.date.getD tx.date
    ∧ (applyUpdate tx patch).id = tx.id
    ∧ (applyUpdate tx patch).user_id = tx.user_id
    ∧ (applyUpdate tx patch).created_at = tx.created_at
    ∧ update_transaction db tx.id TransactionUpdate.empty uid = (some tx, db) := by
  have hsome := get_transaction_eq_some hids hmem hown
  have hempty : applyUpdate tx TransactionUpdate.empty = tx := rfl
  have hmap : db.map (fun u => if u.id = tx.id then tx else u) = db := by
    conv_rhs => rw [← List.map_id db]
    refine List.map_congr_left (fun u hu => ?_)
    by_cases h : u.id = tx.id
    · rw [if_pos h, row_eq_of_id_eq hids hu hmem h]
      rfl
    · rw [if_neg h]
      rfl
  refine ⟨?_, rfl, rfl, rfl, rfl, rfl, rfl, rfl, rfl, ?_⟩
  · unfold update_transaction
    rw [hsome]
  · unfold update_transaction
    rw [hsome]
    simp only [hempty, hmap]

theorem applyCategoryFilter_eq {category : Option String} (hc : category ≠ some "")
    (q : List Transaction) :
    applyCategoryFilter category q
      = q.filter (fun t => match category with | some c => t.category == c | none => true) := by
  rcases category with _ | c
  · simp [applyCategoryFilter]
  · have hc1 : c ≠ "" := fun h => hc (by rw [h])
    simp [applyCategoryFilter, hc1]

theorem applyTypeFilter_eq {transaction_type : Option String} (hty : transaction_type ≠ some "")
    (q : List Transaction) :
    applyTypeFilter transaction_type q
      = q.filter (fun t =>
          match transaction_type with | some ty => t.transaction_type == ty | none => true) := by
  rcases transaction_type with _ | ty
  · simp [applyTypeFilter]
  · have h1 : ty ≠ "" := fun h => hty (by rw [h])
    simp [applyTypeFilter, h1]

theorem applyStartFilter_eq (start_date : Option DateTime) (q : List Transaction) :
    applyStartFilter start_date q
      = q.filter (fun t =>
          match start_date with | some d => decide (d ≤ t.date) | none => true) := by
  rcases start_date with _ | d <;> simp [applyStartFilter]

theorem applyEndFilter_eq (end_date : Option DateTime) (q : List Transaction) :
    applyEndFilter end_date q
      = q.filter (fun t =>
          match end_date with | some d => decide (t.date ≤ d) | none => true) := by
  rcases end_date with _ | d <;> simp [applyEndFilter]

theorem bool_chain_reorder (a b c d e : Bool) :
    ((((e && d) && c) && b) && a) = ((((a && b) && c) && d) && e) := by
  cases a <;> cases b <;> cases c <;> cases d <;> cases e <;> rfl

/-- With non-empty string filters, the source's conditional filter chain is one
filter by the spec's combined predicate. -/
theorem filter_chain_eq (db : List Transaction) (uid : Nat)
    (category transaction_type : Option String) (start_date end_date : Option DateTime)
    (hc : category ≠ some "") (hty : transaction_type ≠ some "") :
    applyEndFilter end_date (applyStartFilter start_date (applyTypeFilter transaction_type
      (applyCategoryFilter category (db.filter (fun t => t.user_id == uid)))))
      = db.filter (matchesFilters uid category transaction_type start_date end_date) := by
  rw [applyCategoryFilter_eq hc, applyTypeFilter_eq hty, applyStartFilter_eq, applyEndFilter_eq,
    List.filter_filter, List.filter_filter, List.filter_filter, List.filter_filter]
  exact List.filter_congr (fun t _ => by
    simp only [matchesFilters]
    exact bool_chain_reorder _ _ _ _ _)

/-- C6 counterexample: with the category filter supplied as the empty string,
the listing returns a transaction whose category is not the empty string, so
the result is not "exactly the transactions matching all supplied filters". -/
theorem c6_counterexample :
    get_transactions [⟨1, 40, "food", none, "expense", 19742, 0, 1⟩] 1 0 100
        (some "") none none none
      = [⟨1, 40, "food", none, "expense", 19742, 0, 1⟩]
    ∧ (⟨1, 40, "food", none, "expense", 19742, 0, 1⟩ : Transaction).category ≠ ""
    ∧ matchesFilters 1 (some "") none none none
        ⟨1, 40, "food", none, "expense", 19742, 0, 1⟩ = false := by
  refine ⟨?_, by simp, by simp [matchesFilters]⟩
  simp [get_transactions, applyCategoryFilter, applyTypeFilter, applyStartFilter,
    applyEndFilter, List.insertionSort]

/-- C6 (amended): for every combination of filters in which a supplied string
filter is non-empty (an empty string counts as not supplied), the listing is
exactly the owner's rows matching all supplied filters — category equality,
type equality, date range inclusive at both ends — ordered by occurrence date
descending, with the first `skip` dropped and at most `limit` kept, `limit`
defaulting to 100. -/
theorem c6_list_filters (db : List Transaction) (uid skip limit : Nat)
    (category transaction_type : Option String) (start_date end_date : Option DateTime)
    (hc : category ≠ some "") (hty : transaction_type ≠ some "") :
    ∃ full : List Transaction,
      full.Perm (db.filter (matchesFilters uid category transaction_type start_date end_date))
      ∧ full.Sorted dateDesc
      ∧ get_transactions db uid skip limit category transaction_type start_date end_date
          = (full.drop skip).take limit
      ∧ (get_transactions db uid skip limit category transaction_type start_date
          end_date).Sorted dateDesc
      ∧ (get_transactions db uid skip limit category transaction_type start_date
          end_date).length ≤ limit
      ∧ (get_transactions db uid skip : List Transaction)
          = get_transactions db uid skip 100 none none none none := by
  set pred := matchesFilters uid category transaction_type start_date end_date with hpred
  have heq : get_transactions db uid skip limit category transaction_type start_date end_date
      = (((db.filter pred).insertionSort dateDesc).drop skip).take limit := by
    unfold get_transactions
    rw [filter_chain_eq db uid category transaction_type start_date end_date hc hty]
  refine ⟨(db.filter pred).insertionSort dateDesc, List.perm_insertionSort _ _,
    List.sorted_insertionSort _ _, heq, ?_, ?_, rfl⟩
  · rw [heq]
    exact List.Pairwise.sublist ((List.take_sublist _ _).trans (List.drop_sublist _ _))
      (List.sorted_insertionSort _ _)
  · rw [heq, List.length_take]
    exact min_le_left _ _

theorem addGroup_snd_sum (acc : List (String × ℚ)) (c : String) (a : ℚ) :
    ((addGroup acc c a).map (fun r => r.2)).sum = (acc.map (fun r => r.2)).sum + a := by
  induction acc with
  | nil => simp [addGroup]
  | cons hd tl ih =>
    obtain ⟨c0, s0⟩ := hd
    by_cases h : c0 = c
    · simp only [addGroup, if_pos h, List.map_cons, List.sum_cons]
      ring
    · simp only [addGroup, if_neg h, List.map_cons, List.sum_cons, ih]
      ring

theorem addGroup_keys (acc : List (String × ℚ)) (c : String) (a : ℚ) :
    (addGroup acc c a).map Prod.fst
      = if c ∈ acc.map Prod.fst then acc.map Prod.fst else acc.map Prod.fst ++ [c] := by
  induction acc with
  | nil => simp [addGroup]
  | cons hd tl ih =>
    obtain ⟨c0, s0⟩ := hd
    by_cases h : c0 = c
    · simp [addGroup, h]
    · simp only [addGroup, if_neg h, List.map_cons, ih]
      by_cases h2 : c ∈ tl.map Prod.fst
      · simp [h2, Ne.symm h]
      · simp [h2, Ne.symm h]

theorem addGroup_mem_keys (acc : List (String × ℚ)) (c c2 : String) (a : ℚ) :
    c2 ∈ (addGroup acc c a).map Prod.fst ↔ c2 ∈ acc.map Prod.fst ∨ c2 = c := by
  rw [addGroup_keys]
  by_cases h : c ∈ acc.map Prod.fst
  · rw [if_pos h]
    constructor
    · exact Or.inl
    · rintro (h2 | rfl)
      exacts [h2, h]
  · rw [if_neg h]
    simp [List.mem_append]

theorem addGroup_keys_nodup {acc : List (String × ℚ)} (h : (acc.map Prod.fst).Nodup)
    (c : String) (a : ℚ) : ((addGroup acc c a).map Prod.fst).Nodup := by
  rw [addGroup_keys]
  by_cases hm : c ∈ acc.map Prod.fst
  · simpa [hm] using h
  · rw [if_neg hm]
    refine h.append (List.nodup_singleton c) ?_
    intro x hx hxc
    rw [List.mem_singleton] at hxc
    exact hm (hxc ▸ hx)

theorem catSum_eq_zero {acc : List (String × ℚ)} {c : String} (h : c ∉ acc.map Prod.fst) :
    catSum acc c = 0 := by
  unfold catSum
  rw [List.filter_eq_nil_iff.mpr ?_]
  · rfl
  · intro r hr
    simp only [beq_iff_eq]
    intro hrc
    exact h (List.mem_map.mpr ⟨r, hr, hrc⟩)

theorem addGroup_catSum (acc : List (String × ℚ)) (c c2 : String) (a : ℚ) :
    catSum (addGroup acc c a) c2 = catSum acc c2 + if c = c2 then a else 0 := by
  induction acc with
  | nil =>
    by_cases h : c = c2
    · have hb : (c == c2) = true := by simpa using h
      simp [addGroup, catSum, List.filter_cons, hb, h]
    · have hb : (c == c2) = false := by simpa using h
      simp [addGroup, catSum, List.filter_cons, hb, h]
  | cons hd tl ih =>
    obtain ⟨c0, s0⟩ := hd
    by_cases h : c0 = c
    · by_cases h2 : c0 = c2
      · subst h h2
        have hc : ((c0 : String) = c0) := rfl
        simp [addGroup, catSum, List.filter_cons, hc]
        ring
      · have hcc2 : ¬(c = c2) := fun hh => h2 (h.trans hh)
        have hb : ((c0 : String) == c2) = false := by simpa using h2
        simp [addGroup, if_pos h, catSum, List.filter_cons, hb, hcc2]
    · have htl := ih
      simp only [catSum] at htl
      by_cases h2 : c0 = c2
      · have hb : ((c0 : String) == c2) = true := by simpa using h2
        simp [addGroup, if_neg h, catSum, List.filter_cons, hb, htl]
        ring
      · have hb : ((c0 : String) == c2) = false := by simpa using h2
        simp [addGroup, if_neg h, catSum, List.filter_cons, hb, htl]

theorem catSum_of_mem {acc : List (String × ℚ)} (h : (acc.map Prod.fst).Nodup)
    {c : String} {s : ℚ} (hmem : (c, s) ∈ acc) : catSum acc c = s := by
  induction acc with
  | nil => cases hmem
  | cons hd tl ih =>
    obtain ⟨c0, s0⟩ := hd
    rw [List.map_cons, List.nodup_cons] at h
    rcases List.mem_cons.mp hmem with heq | hmem2
    · obtain ⟨rfl, rfl⟩ := Prod.mk.injEq .. ▸ heq
      have hz : catSum tl c = 0 := catSum_eq_zero (by injection heq with h1 h2; exact h1 ▸ h.1)
      have hz2 : ((tl.filter (fun r => r.1 == c)).map (fun r => r.2)).sum = 0 := by
        simpa [catSum] using hz
      simp [catSum, List.filter_cons, hz2]
    · have hck : c ∈ tl.map Prod.fst := List.mem_map.mpr ⟨(c, s), hmem2, rfl⟩
      have hne : c0 ≠ c := fun hh => h.1 (hh ▸ hck)
      have hb : ((c0 : String) == c) = false := by simpa using hne
      simp only [catSum, List.filter_cons, hb]
      have := ih h.2 hmem2
      simpa [catSum] using this

theorem groupFold_snd_sum (ts : List Transaction) (acc : List (String × ℚ)) :
    ((ts.foldl (fun acc2 t => addGroup acc2 t.category t.amount) acc).map (fun r => r.2)).sum
      = (acc.map (fun r => r.2)).sum + (ts.map (fun t => t.amount)).sum := by
  induction ts generalizing acc with
  | nil => simp
  | cons t ts ih =>
    rw [List.foldl_cons, ih, addGroup_snd_sum]
    simp only [List.map_cons, List.sum_cons]
    ring

theorem groupFold_keys_nodup (ts : List Transaction) (acc : List (String × ℚ))
    (h : (acc.map Prod.fst).Nodup) :
    ((ts.foldl (fun acc2 t => addGroup acc2 t.category t.amount) acc).map Prod.fst).Nodup := by
  induction ts generalizing acc with
  | nil => exact h
  | cons t ts ih => exact ih _ (addGroup_keys_nodup h _ _)

theorem groupFold_mem_keys (ts : List Transaction) (acc : List (String × ℚ)) (c : String) :
    c ∈ (ts.foldl (fun acc2 t => addGroup acc2 t.category t.amount) acc).map Prod.fst
      ↔ c ∈ acc.map Prod.fst ∨ ∃ t ∈ ts, t.category = c := by
  induction ts generalizing acc with
  | nil => simp
  | cons t ts ih =>
    rw [List.foldl_cons, ih]
    constructor
    · rintro (h1 | ⟨t2, ht2, h2⟩)
      · rcases (addGroup_mem_keys acc t.category c t.amount).mp h1 with h3 | rfl
        · exact Or.inl h3
        · exact Or.inr ⟨t, List.mem_cons_self t ts, rfl⟩
      · exact Or.inr ⟨t2, List.mem_cons_of_mem t ht2, h2⟩
    · rintro (h1 | ⟨t2, ht2, h2⟩)
      · exact Or.inl ((addGroup_mem_keys acc t.category c t.amount).mpr (Or.inl h1))
      · rcases List.mem_cons.mp ht2 with rfl | ht3
        · exact Or.inl ((addGroup_mem_keys acc t2.category c t2.amount).mpr (Or.inr h2.symm))
        · exact Or.inr ⟨t2, ht3, h2⟩

theorem groupFold_catSum (ts : List Transaction) (acc : List (String × ℚ)) (c : String) :
    catSum (ts.foldl (fun acc2 t => addGroup acc2 t.category t.amount) acc) c
      = catSum acc c + ((ts.filter (fun t => t.category == c)).map (fun t => t.amount)).sum := by
  induction ts generalizing acc with
  | nil => simp
  | cons t ts ih =>
    rw [List.foldl_cons, ih, addGroup_catSum]
    by_cases h : t.category = c
    · have hb : (t.category == c) = true := by simpa using h
      simp [List.filter_cons, hb, h]
      ring
    · have hb : (t.category == c) = false := by simpa using h
      simp [List.filter_cons, hb, h]

theorem groupSums_keys_nodup (ts : List Transaction) : ((groupSums ts).map Prod.fst).Nodup :=
  groupFold_keys_nodup ts [] (by simp)

theorem groupSums_catSum (ts : List Transaction) (c : String) :
    catSum (groupSums ts) c
      = ((ts.filter (fun t => t.category == c)).map (fun t => t.amount)).sum := by
  have h := groupFold_catSum ts [] c
  simpa [catSum] using h

theorem groupSums_mem_keys (ts : List Transaction) (c : String) :
    c ∈ (groupSums ts).map Prod.fst ↔ ∃ t ∈ ts, t.category = c := by
  have h := groupFold_mem_keys ts [] c
  simpa using h

theorem groupSums_snd_sum (ts : List Transaction) :
    ((groupSums ts).map (fun r => r.2)).sum = (ts.map (fun t => t.amount)).sum := by
  have h := groupFold_snd_sum ts []
  simpa using h

/-- Round-half-to-even never strays from its argument by more than a half. -/
theorem bankersRound_close (q : ℚ) : |(bankersRound q : ℚ) - q| ≤ 1 / 2 := by
  have h1 : ((⌊q⌋ : ℤ) : ℚ) ≤ q := Int.floor_le q
  have h2 : q < (⌊q⌋ : ℚ) + 1 := Int.lt_floor_add_one q
  simp only [bankersRound]
  by_cases hc1 : q - (⌊q⌋ : ℚ) < 1 / 2
  · rw [if_pos hc1, abs_le]
    constructor <;> linarith
  · rw [if_neg hc1]
    by_cases hc2 : 1 / 2 < q - (⌊q⌋ : ℚ)
    · rw [if_pos hc2]
      push_cast
      rw [abs_le]
      constructor <;> linarith
    · rw [if_neg hc2]
      have heq : q - (⌊q⌋ : ℚ) = 1 / 2 := le_antisymm (not_lt.mp hc2) (not_lt.mp hc1)
      by_cases hc3 : ⌊q⌋ % 2 = 0
      · rw [if_pos hc3, abs_le]
        constructor <;> linarith
      · rw [if_neg hc3]
        push_cast
        rw [abs_le]
        constructor <;> linarith

/-- Rounding to two decimal places moves a value by at most `1 / 200`. -/
theorem round2_close (q : ℚ) : |round2 q - q| ≤ 1 / 200 := by
  have h := bankersRound_close (q * 100)
  simp only [round2]
  have hrw : (bankersRound (q * 100) : ℚ) / 100 - q
      = ((bankersRound (q * 100) : ℚ) - q * 100) / 100 := by ring
  rw [hrw, abs_div, abs_of_pos (by norm_num : (0:ℚ) < 100)]
  linarith

/-- Rounding each summand to two decimals moves a sum by at most
`1 / 200` per element. -/
theorem sum_map_round2_close (l : List ℚ) :
    |(l.map round2).sum - l.sum| ≤ (l.length : ℚ) * (1 / 200) := by
  induction l with
  | nil => simp
  | cons a l ih =>
    simp only [List.map_cons, List.sum_cons, List.length_cons]
    have h1 := round2_close a
    have habs : |round2 a + (l.map round2).sum - (a + l.sum)|
        ≤ |round2 a - a| + |(l.map round2).sum - l.sum| := by
      have : round2 a + (l.map round2).sum - (a + l.sum)
          = (round2 a - a) + ((l.map round2).sum - l.sum) := by ring
      rw [this]
      exact abs_add _ _
    push_cast
    linarith

theorem sum_map_ratio (l : List (String × ℚ)) (T : ℚ) :
    (l.map (fun r => r.2 / T * 100)).sum = (l.map (fun r => r.2)).sum / T * 100 := by
  induction l with
  | nil => simp
  | cons a l ih =>
    simp only [List.map_cons, List.sum_cons, ih]
    ring

/-- When the grand total is positive, the rounded shares of that total sum to
100 up to `1 / 200` per group. -/
theorem breakdown_sum_bound (results : List (String × ℚ))
    (hT : 0 < (results.map (fun r => r.2)).sum) :
    |(results.map (fun r =>
        round2 (r.2 / (results.map (fun r => r.2)).sum * 100))).sum - 100|
      ≤ (results.length : ℚ) * (1 / 200) := by
  set T := (results.map (fun r => r.2)).sum with hTdef
  have h100 : (results.map (fun r => r.2 / T * 100)).sum = 100 := by
    rw [sum_map_ratio, ← hTdef, div_self (ne_of_gt hT), one_mul]
  have hl := sum_map_round2_close (results.map (fun r => r.2 / T * 100))
  rw [h100, List.map_map, List.length_map] at hl
  exact hl

/-- C3 counterexample: with a single expense of amount −10 the grand total is
−10, which is nonzero, yet the reported percentage is 0 rather than the claimed
`round2 (100 × (−10) / (−10)) = 100`; the code normalizes every non-positive
grand total to zero percentages, not only a zero one. -/
theorem c3_counterexample :
    get_category_breakdown [⟨1, -10, "food", none, "expense", 19742, 0, 1⟩] 1 "expense"
      = [⟨"food", -10, 0⟩]
    ∧ categoryGrandTotal [⟨1, -10, "food", none, "expense", 19742, 0, 1⟩] 1 "expense" = -10
    ∧ (-10 : ℚ) ≠ 0
    ∧ round2 ((-10 : ℚ) / (-10) * 100) = 100 := by
  refine ⟨?_, ?_, by norm_num, by norm_num [round2, bankersRound]⟩
  · norm_num [get_category_breakdown, groupSums, addGroup]
  · norm_num [categoryGrandTotal, groupSums, addGroup]

/-- C3 (amended): the breakdown groups the owner's rows of the given type by
category with per-group totals equal to the in-group amount sums; each
percentage is `round2 (100 × total / grand_total)` when the grand total is
strictly positive, and 0 for every group when the grand total is zero or
negative (so a zero grand total cannot cause a division failure). -/
theorem c3_category_breakdown (db : List Transaction) (uid : Nat) (ttype : String) :
    (∀ e ∈ get_category_breakdown db uid ttype,
        e.total = ((db.filter (fun t => t.user_id == uid && t.transaction_type == ttype
            && t.category == e.category)).map (fun t => t.amount)).sum
        ∧ e.percentage = (if 0 < categoryGrandTotal db uid ttype
            then round2 (e.total / categoryGrandTotal db uid ttype * 100) else 0))
    ∧ ((get_category_breakdown db uid ttype).map (fun e => e.category)).Nodup
    ∧ (∀ t ∈ db, t.user_id = uid → t.transaction_type = ttype →
        ∃ e ∈ get_category_breakdown db uid ttype, e.category = t.category)
    ∧ (categoryGrandTotal db uid ttype ≤ 0 →
        ∀ e ∈ get_category_breakdown db uid ttype, e.percentage = 0) := by
  have hnodup := groupSums_keys_nodup
    (db.filter (fun t => t.user_id == uid && t.transaction_type == ttype))
  refine ⟨?_, ?_, ?_, ?_⟩
  · intro e he
    simp only [get_category_breakdown] at he
    obtain ⟨r, hr, rfl⟩ := List.mem_map.mp he
    constructor
    · have hcat : catSum (groupSums
          (db.filter (fun t => t.user_id == uid && t.transaction_type == ttype))) r.1 = r.2 :=
        catSum_of_mem hnodup hr
      rw [groupSums_catSum] at hcat
      have hfilter : (db.filter (fun t => t.user_id == uid && t.transaction_type == ttype)).filter
            (fun t => t.category == r.1)
          = db.filter (fun t => t.user_id == uid && t.transaction_type == ttype
              && t.category == r.1) := by
        rw [List.filter_filter]
        exact List.filter_congr (fun x _ => Bool.and_comm _ _)
      rw [hfilter] at hcat
      exact hcat.symm
    · rfl
  · simp only [get_category_breakdown, List.map_map]
    exact hnodup
  · intro t ht hu hty2
    have hmemf : t ∈ db.filter (fun t => t.user_id == uid && t.transaction_type == ttype) :=
      List.mem_filter.mpr ⟨ht, by simp [hu, hty2]⟩
    have hkey : t.category ∈ (groupSums
        (db.filter (fun t => t.user_id == uid && t.transaction_type == ttype))).map Prod.fst :=
      (groupSums_mem_keys _ _).mpr ⟨t, hmemf, rfl⟩
    obtain ⟨r, hr, hr1⟩ := List.mem_map.mp hkey
    refine ⟨_, List.mem_map.mpr ⟨r, hr, rfl⟩, hr1⟩
  · intro hT e he
    simp only [get_category_breakdown] at he
    obtain ⟨r, hr, rfl⟩ := List.mem_map.mp he
    simp only [categoryGrandTotal] at hT
    exact if_neg (not_lt.mpr hT)

/-- C3 witness: on the two-expense table (food 40, rent 60) the grouped totals,
percentages and coverage are as the amended claim computes them. -/
theorem c3_witness :
    (⟨"food", 40, 40⟩ : CategoryBreakdown) ∈ get_category_breakdown
        [⟨1, 40, "food", none, "expense", 19742, 0, 1⟩,
         ⟨2, 60, "rent", none, "expense", 19743, 0, 1⟩] 1 "expense"
    ∧ (⟨"food", 40, 40⟩ : CategoryBreakdown).percentage
        = (if 0 < categoryGrandTotal
              [⟨1, 40, "food", none, "expense", 19742, 0, 1⟩,
               ⟨2, 60, "rent", none, "expense", 19743, 0, 1⟩] 1 "expense"
           then round2 ((⟨"food", 40, 40⟩ : CategoryBreakdown).total / categoryGrandTotal
              [⟨1, 40, "food", none, "expense", 19742, 0, 1⟩,
               ⟨2, 60, "rent", none, "expense", 19743, 0, 1⟩] 1 "expense" * 100) else 0) := by
  have hlist : get_category_breakdown
      [⟨1, 40, "food", none, "expense", 19742, 0, 1⟩,
       ⟨2, 60, "rent", none, "expense", 19743, 0, 1⟩] 1 "expense"
      = [⟨"food", 40, 40⟩, ⟨"rent", 60, 60⟩] := by
    norm_num [get_category_breakdown, groupSums, addGroup, round2, bankersRound,
      eq_false (by decide : ¬("food" = "rent"))]
  have hmem : (⟨"food", 40, 40⟩ : CategoryBreakdown) ∈ get_category_breakdown
      [⟨1, 40, "food", none, "expense", 19742, 0, 1⟩,
       ⟨2, 60, "rent", none, "expense", 19743, 0, 1⟩] 1 "expense" := by
    rw [hlist]
    exact List.mem_cons_self _ _
  exact ⟨hmem, ((c3_category_breakdown
    [⟨1, 40, "food", none, "expense", 19742, 0, 1⟩,
     ⟨2, 60, "rent", none, "expense", 19743, 0, 1⟩] 1 "expense").1 _ hmem).2⟩

/-- C7: when the grand total is strictly positive the rounded percentages sum
to 100 up to `1 / 200` per group, and when it is zero every percentage is 0. -/
theorem c7_percentage_sum (db : List Transaction) (uid : Nat) (ttype : String) :
    (0 < categoryGrandTotal db uid ttype →
      |((get_category_breakdown db uid ttype).map (fun e => e.percentage)).sum - 100|
        ≤ ((get_category_breakdown db uid ttype).length : ℚ) * (1 / 200))
    ∧ (categoryGrandTotal db uid ttype = 0 →
      ∀ e ∈ get_category_breakdown db uid ttype, e.percentage = 0) := by
  constructor
  · intro hT
    simp only [categoryGrandTotal] at hT
    have hmap : (get_category_breakdown db uid ttype).map (fun e => e.percentage)
        = (groupSums (db.filter (fun t => t.user_id == uid
            && t.transaction_type == ttype))).map (fun r =>
              round2 (r.2 / ((groupSums (db.filter (fun t => t.user_id == uid
                && t.transaction_type == ttype))).map (fun r => r.2)).sum * 100)) := by
      simp only [get_category_breakdown, List.map_map]
      exact List.map_congr_left (fun r _ => if_pos hT)
    have hlen : (get_category_breakdown db uid ttype).length
        = (groupSums (db.filter (fun t => t.user_id == uid
            && t.transaction_type == ttype))).length := by
      simp [get_category_breakdown]
    rw [hmap, hlen]
    exact breakdown_sum_bound _ hT
  · intro hT0 e he
    simp only [get_category_breakdown] at he
    obtain ⟨r, hr, rfl⟩ := List.mem_map.mp he
    simp only [categoryGrandTotal] at hT0
    have : ¬(0 < ((groupSums (db.filter (fun t => t.user_id == uid
        && t.transaction_type == ttype))).map (fun r => r.2)).sum) := by
      rw [hT0]
      exact lt_irrefl 0
    exact if_neg this

/-- C7 witness: on the two-expense table (food 40, rent 60) the grand total 100
is positive and the percentage sum deviates from 100 by at most `2 / 200`. -/
theorem c7_witness :
    0 < categoryGrandTotal
        [⟨1, 40, "food", none, "expense", 19742, 0, 1⟩,
         ⟨2, 60, "rent", none, "expense", 19743, 0, 1⟩] 1 "expense"
    ∧ |((get_category_breakdown
        [⟨1, 40, "food", none, "expense", 19742, 0, 1⟩,
         ⟨2, 60, "rent", none, "expense", 19743, 0, 1⟩] 1 "expense").map
          (fun e => e.percentage)).sum - 100|
      ≤ ((get_category_breakdown
        [⟨1, 40, "food", none, "expense", 19742, 0, 1⟩,
         ⟨2, 60, "rent", none, "expense", 19743, 0, 1⟩] 1 "expense").length : ℚ) * (1 / 200) :=
  ⟨by norm_num [categoryGrandTotal, groupSums, addGroup,
      eq_false (by decide : ¬("food" = "rent"))],
   (c7_percentage_sum
      [⟨1, 40, "food", none, "expense", 19742, 0, 1⟩,
       ⟨2, 60, "rent", none, "expense", 19743, 0, 1⟩] 1 "expense").1
     (by norm_num [categoryGrandTotal, groupSums, addGroup,
        eq_false (by decide : ¬("food" = "rent"))])⟩

theorem addMonthly_keys (acc : List (String × ℚ × ℚ)) (k : String) (t : Transaction) :
    (addMonthly acc k t).map Prod.fst
      = if k ∈ acc.map Prod.fst then acc.map Prod.fst else acc.map Prod.fst ++ [k] := by
  induction acc with
  | nil => simp [addMonthly]
  | cons hd tl ih =>
    obtain ⟨k0, v0⟩ := hd
    by_cases h : k0 = k
    · simp [addMonthly, h]
    · simp only [addMonthly, if_neg h, List.map_cons, ih]
      by_cases h2 : k ∈ tl.map Prod.fst
      · simp [h2, Ne.symm h]
      · simp [h2, Ne.symm h]

theorem addMonthly_mem_keys (acc : List (String × ℚ × ℚ)) (k k2 : String) (t : Transaction) :
    k2 ∈ (addMonthly acc k t).map Prod.fst ↔ k2 ∈ acc.map Prod.fst ∨ k2 = k := by
  rw [addMonthly_keys]
  by_cases h : k ∈ acc.map Prod.fst
  · rw [if_pos h]
    constructor
    · exact Or.inl
    · rintro (h2 | rfl)
      exacts [h2, h]
  · rw [if_neg h]
    simp [List.mem_append]

theorem addMonthly_keys_nodup {acc : List (String × ℚ × ℚ)} (h : (acc.map Prod.fst).Nodup)
    (k : String) (t : Transaction) : ((addMonthly acc k t).map Prod.fst).Nodup := by
  rw [addMonthly_keys]
  by_cases hm : k ∈ acc.map Prod.fst
  · simpa [hm] using h
  · rw [if_neg hm]
    refine h.append (List.nodup_singleton k) ?_
    intro x hx hxk
    rw [List.mem_singleton] at hxk
    exact hm (hxk ▸ hx)

theorem keyIncome_eq_zero {acc : List (String × ℚ × ℚ)} {k : String}
    (h : k ∉ acc.map Prod.fst) : keyIncome acc k = 0 := by
  unfold keyIncome
  rw [List.filter_eq_nil_iff.mpr ?_]
  · rfl
  · intro e he
    simp only [beq_iff_eq]
    intro hek
    exact h (List.mem_map.mpr ⟨e, he, hek⟩)

theorem keyExpense_eq_zero {acc : List (String × ℚ × ℚ)} {k : String}
    (h : k ∉ acc.map Prod.fst) : keyExpense acc k = 0 := by
  unfold keyExpense
  rw [List.filter_eq_nil_iff.mpr ?_]
  · rfl
  · intro e he
    simp only [beq_iff_eq]
    intro hek
    exact h (List.mem_map.mpr ⟨e, he, hek⟩)

theorem addMonthly_keyIncome (acc : List (String × ℚ × ℚ)) (k k2 : String) (t : Transaction) :
    keyIncome (addMonthly acc k t) k2
      = keyIncome acc k2
        + if k = k2 then (if t.transaction_type = "income" then t.amount else 0) else 0 := by
  induction acc with
  | nil =>
    by_cases h : k = k2
    · have hb : (k == k2) = true := by simpa using h
      by_cases hty : t.transaction_type = "income" <;>
        simp [addMonthly, keyIncome, List.filter_cons, hb, h, hty]
    · have hb : (k == k2) = false := by simpa using h
      by_cases hty : t.transaction_type = "income" <;>
        simp [addMonthly, keyIncome, List.filter_cons, hb, h, hty]
  | cons hd tl ih =>
    obtain ⟨k0, v0⟩ := hd
    by_cases h : k0 = k
    · by_cases h2 : k0 = k2
      · subst h h2
        have hc : ((k0 : String) = k0) := rfl
        by_cases hty : t.transaction_type = "income" <;>
          (simp [addMonthly, keyIncome, List.filter_cons, hc, hty]; try ring)
      · have hkk2 : ¬(k = k2) := fun hh => h2 (h.trans hh)
        have hb : ((k0 : String) == k2) = false := by simpa using h2
        by_cases hty : t.transaction_type = "income" <;>
          simp [addMonthly, if_pos h, keyIncome, List.filter_cons, hb, hkk2, hty]
    · have htl := ih
      simp only [keyIncome] at htl
      by_cases h2 : k0 = k2
      · have hb : ((k0 : String) == k2) = true := by simpa using h2
        simp [addMonthly, if_neg h, keyIncome, List.filter_cons, hb, htl]
        ring
      · have hb : ((k0 : String) == k2) = false := by simpa using h2
        simp [addMonthly, if_neg h, keyIncome, List.filter_cons, hb, htl]

theorem addMonthly_keyExpense (acc : List (String × ℚ × ℚ)) (k k2 : String) (t : Transaction) :
    keyExpense (addMonthly acc k t) k2
      = keyExpense acc k2
        + if k = k2 then (if t.transaction_type = "income" then 0 else t.amount) else 0 := by
  induction acc with
  | nil =>
    by_cases h : k = k2
    · have hb : (k == k2) = true := by simpa using h
      by_cases hty : t.transaction_type = "income" <;>
        simp [addMonthly, keyExpense, List.filter_cons, hb, h, hty]
    · have hb : (k == k2) = false := by simpa using h
      by_cases hty : t.transaction_type = "income" <;>
        simp [addMonthly, keyExpense, List.filter_cons, hb, h, hty]
  | cons hd tl ih =>
    obtain ⟨k0, v0⟩ := hd
    by_cases h : k0 = k
    · by_cases h2 : k0 = k2
      · subst h h2
        have hc : ((k0 : String) = k0) := rfl
        by_cases hty : t.transaction_type = "income" <;>
          (simp [addMonthly, keyExpense, List.filter_cons, hc, hty]; try ring)
      · have hkk2 : ¬(k = k2) := fun hh => h2 (h.trans hh)
        have hb : ((k0 : String) == k2) = false := by simpa using h2
        by_cases hty : t.transaction_type = "income" <;>
          simp [addMonthly, if_pos h, keyExpense, List.filter_cons, hb, hkk2, hty]
    · have htl := ih
      simp only [keyExpense] at htl
      by_cases h2 : k0 = k2
      · have hb : ((k0 : String) == k2) = true := by simpa using h2
        simp [addMonthly, if_neg h, keyExpense, List.filter_cons, hb, htl]
        ring
      · have hb : ((k0 : String) == k2) = false := by simpa using h2
        simp [addMonthly, if_neg h, keyExpense, List.filter_cons, hb, htl]

theorem addMonthly_expense_total (acc : List (String × ℚ × ℚ)) (k : String) (t : Transaction) :
    ((addMonthly acc k t).map (fun e => e.2.2)).sum
      = (acc.map (fun e => e.2.2)).sum
        + (if t.transaction_type = "income" then 0 else t.amount) := by
  induction acc with
  | nil => by_cases hty : t.transaction_type = "income" <;> simp [addMonthly, hty]
  | cons hd tl ih =>
    obtain ⟨k0, v0⟩ := hd
    by_cases h : k0 = k
    · by_cases hty : t.transaction_type = "income" <;>
        (simp [addMonthly, h, hty]; try ring)
    · simp only [addMonthly, if_neg h, List.map_cons, List.sum_cons, ih]
      ring

theorem monthFold_keys_nodup (ts : List Transaction) (acc : List (String × ℚ × ℚ))
    (h : (acc.map Prod.fst).Nodup) :
    ((ts.foldl (fun acc2 t => addMonthly acc2 (monthKey t.date) t) acc).map Prod.fst).Nodup := by
  induction ts generalizing acc with
  | nil => exact h
  | cons t ts ih => exact ih _ (addMonthly_keys_nodup h _ _)

theorem monthFold_mem_keys (ts : List Transaction) (acc : List (String × ℚ × ℚ)) (k : String) :
    k ∈ (ts.foldl (fun acc2 t => addMonthly acc2 (monthKey t.date) t) acc).map Prod.fst
      ↔ k ∈ acc.map Prod.fst ∨ ∃ t ∈ ts, monthKey t.date = k := by
  induction ts generalizing acc with
  | nil => simp
  | cons t ts ih =>
    rw [List.foldl_cons, ih]
    constructor
    · rintro (h1 | ⟨t2, ht2, h2⟩)
      · rcases (addMonthly_mem_keys acc (monthKey t.date) k t).mp h1 with h3 | rfl
        · exact Or.inl h3
        · exact Or.inr ⟨t, List.mem_cons_self t ts, rfl⟩
      · exact Or.inr ⟨t2, List.mem_cons_of_mem t ht2, h2⟩
    · rintro (h1 | ⟨t2, ht2, h2⟩)
      · exact Or.inl ((addMonthly_mem_keys acc (monthKey t.date) k t).mpr (Or.inl h1))
      · rcases List.mem_cons.mp ht2 with rfl | ht3
        · exact Or.inl ((addMonthly_mem_keys acc (monthKey t2.date) k t2).mpr (Or.inr h2.symm))
        · exact Or.inr ⟨t2, ht3, h2⟩

theorem monthFold_keyIncome (ts : List Transaction) (acc : List (String × ℚ × ℚ)) (k : String) :
    keyIncome (ts.foldl (fun acc2 t => addMonthly acc2 (monthKey t.date) t) acc) k
      = keyIncome acc k
        + ((ts.filter (fun t => monthKey t.date == k && t.transaction_type == "income")).map
            (fun t => t.amount)).sum := by
  induction ts generalizing acc with
  | nil => simp
  | cons t ts ih =>
    rw [List.foldl_cons, ih, addMonthly_keyIncome]
    by_cases hk : monthKey t.date = k <;> by_cases hty : t.transaction_type = "income" <;>
      (simp [List.filter_cons, hk, hty]; try ring)

theorem monthFold_keyExpense (ts : List Transaction) (acc : List (String × ℚ × ℚ)) (k : String) :
    keyExpense (ts.foldl (fun acc2 t => addMonthly acc2 (monthKey t.date) t) acc) k
      = keyExpense acc k
        + ((ts.filter (fun t =>
            monthKey t.date == k && !(t.transaction_type == "income"))).map
            (fun t => t.amount)).sum := by
  induction ts generalizing acc with
  | nil => simp
  | cons t ts ih =>
    rw [List.foldl_cons, ih, addMonthly_keyExpense]
    by_cases hk : monthKey t.date = k <;> by_cases hty : t.transaction_type = "income" <;>
      (simp [List.filter_cons, hk, hty]; try ring)

theorem monthFold_expense_total (ts : List Transaction) (acc : List (String × ℚ × ℚ)) :
    ((ts.foldl (fun acc2 t => addMonthly acc2 (monthKey t.date) t) acc).map
        (fun e => e.2.2)).sum
      = (acc.map (fun e => e.2.2)).sum
        + ((ts.filter (fun t => !(t.transaction_type == "income"))).map
            (fun t => t.amount)).sum := by
  induction ts generalizing acc with
  | nil => simp
  | cons t ts ih =>
    rw [List.foldl_cons, ih, addMonthly_expense_total]
    by_cases hty : t.transaction_type = "income" <;>
      (simp [List.filter_cons, hty]; try ring)

/-- With distinct keys, a dict entry records exactly the key's running sums. -/
theorem monthEntry_eq {md : List (String × ℚ × ℚ)} (h : (md.map Prod.fst).Nodup)
    {k : String} {v : ℚ × ℚ} (hmem : (k, v) ∈ md) :
    v.1 = keyIncome md k ∧ v.2 = keyExpense md k := by
  induction md with
  | nil => cases hmem
  | cons hd tl ih =>
    obtain ⟨k0, v0⟩ := hd
    rw [List.map_cons, List.nodup_cons] at h
    rcases List.mem_cons.mp hmem with heq | hmem2
    · obtain ⟨rfl, rfl⟩ := Prod.mk.injEq .. ▸ heq
      have hk : k ∉ tl.map Prod.fst := by injection heq with h1 h2; exact h1 ▸ h.1
      have hzi : keyIncome tl k = 0 := keyIncome_eq_zero hk
      have hze : keyExpense tl k = 0 := keyExpense_eq_zero hk
      have hzi2 : ((tl.filter (fun e => e.1 == k)).map (fun e => e.2.1)).sum = 0 := by
        simpa [keyIncome] using hzi
      have hze2 : ((tl.filter (fun e => e.1 == k)).map (fun e => e.2.2)).sum = 0 := by
        simpa [keyExpense] using hze
      constructor <;> simp [keyIncome, keyExpense, List.filter_cons, hzi2, hze2]
    · have hck : k ∈ tl.map Prod.fst := List.mem_map.mpr ⟨(k, v), hmem2, rfl⟩
      have hne : k0 ≠ k := fun hh => h.1 (hh ▸ hck)
      have hb : ((k0 : String) == k) = false := by simpa using hne
      have := ih h.2 hmem2
      constructor <;>
        · simp only [keyIncome, keyExpense, List.filter_cons, hb]
          simp only [keyIncome, keyExpense] at this
          simp [this.1, this.2]

theorem buildMonthly_keys_nodup (ts : List Transaction) :
    ((buildMonthly ts).map Prod.fst).Nodup :=
  monthFold_keys_nodup ts [] (by simp)

theorem buildMonthly_mem_keys (ts : List Transaction) (k : String) :
    k ∈ (buildMonthly ts).map Prod.fst ↔ ∃ t ∈ ts, monthKey t.date = k := by
  have h := monthFold_mem_keys ts [] k
  simpa using h

theorem buildMonthly_keyIncome (ts : List Transaction) (k : String) :
    keyIncome (buildMonthly ts) k
      = ((ts.filter (fun t => monthKey t.date == k && t.transaction_type == "income")).map
          (fun t => t.amount)).sum := by
  have h := monthFold_keyIncome ts [] k
  simpa [keyIncome] using h

theorem buildMonthly_keyExpense (ts : List Transaction) (k : String) :
    keyExpense (buildMonthly ts) k
      = ((ts.filter (fun t =>
          monthKey t.date == k && !(t.transaction_type == "income"))).map
          (fun t => t.amount)).sum := by
  have h := monthFold_keyExpense ts [] k
  simpa [keyExpense] using h

theorem buildMonthly_expense_total (ts : List Transaction) :
    ((buildMonthly ts).map (fun e => e.2.2)).sum
      = ((ts.filter (fun t => !(t.transaction_type == "income"))).map
          (fun t => t.amount)).sum := by
  have h := monthFold_expense_total ts []
  simpa using h

theorem bool_reorder_inc (u g l k i : Bool) :
    ((k && i) && ((u && g) && l)) = ((((u && g) && l) && k) && i) := by
  cases u <;> cases g <;> cases l <;> cases k <;> cases i <;> rfl

/-- C4: for a positive `months` and well-typed transactions, the monthly
summary considers exactly the owner's rows dated in the inclusive window of
`months × 30` days ending at the current instant, buckets them by the
year-month of the occurrence date, reports each non-empty bucket once with its
income and expense sums, ordered strictly ascending by the "YYYY-MM" key, and
omits empty months (every reported month has a witnessing row). -/
theorem c4_monthly_summary (db : List Transaction) (uid : Nat) (now : DateTime) (months : Nat)
    (_hm : 0 < months)
    (htype : ∀ t ∈ db, t.transaction_type = "income" ∨ t.transaction_type = "expense") :
    ((get_monthly_summary db uid now months).map (fun e => e.month)).Pairwise (· < ·)
    ∧ (∀ e ∈ get_monthly_summary db uid now months,
        (∃ t ∈ db, t.user_id = uid ∧ now - 30 * (months : Int) ≤ t.date ∧ t.date ≤ now
          ∧ monthKey t.date = e.month)
        ∧ e.income = ((db.filter (fun t => t.user_id == uid
            && decide (now - 30 * (months : Int) ≤ t.date) && decide (t.date ≤ now)
            && monthKey t.date == e.month && t.transaction_type == "income")).map
            (fun t => t.amount)).sum
        ∧ e.expenses = ((db.filter (fun t => t.user_id == uid
            && decide (now - 30 * (months : Int) ≤ t.date) && decide (t.date ≤ now)
            && monthKey t.date == e.month && t.transaction_type == "expense")).map
            (fun t => t.amount)).sum)
    ∧ (∀ t ∈ db, t.user_id = uid → now - 30 * (months : Int) ≤ t.date → t.date ≤ now →
        ∃ e ∈ get_monthly_summary db uid now months, e.month = monthKey t.date) := by
  set w : Transaction → Bool := fun t =>
    t.user_id == uid && decide (now - 30 * (months : Int) ≤ t.date) && decide (t.date ≤ now)
    with hw
  have hdef : get_monthly_summary db uid now months
      = ((buildMonthly (db.filter w)).insertionSort keyLe).map
          (fun e => ⟨e.1, e.2.1, e.2.2⟩) := rfl
  have hperm : ((buildMonthly (db.filter w)).insertionSort keyLe).Perm
      (buildMonthly (db.filter w)) := List.perm_insertionSort _ _
  have hnodup0 := buildMonthly_keys_nodup (db.filter w)
  have hnodup : (((buildMonthly (db.filter w)).insertionSort keyLe).map Prod.fst).Nodup :=
    ((hperm.map Prod.fst).nodup_iff).mpr hnodup0
  have hsorted : ((buildMonthly (db.filter w)).insertionSort keyLe).Sorted keyLe :=
    List.sorted_insertionSort _ _
  have hmonths : (get_monthly_summary db uid now months).map (fun e => e.month)
      = ((buildMonthly (db.filter w)).insertionSort keyLe).map Prod.fst := by
    rw [hdef, List.map_map]
    exact List.map_congr_left (fun e _ => rfl)
  refine ⟨?_, ?_, ?_⟩
  · rw [hmonths]
    have hle : (((buildMonthly (db.filter w)).insertionSort keyLe).map Prod.fst).Pairwise
        (fun a b : String => a ≤ b) := List.pairwise_map.mpr hsorted
    have hne : (((buildMonthly (db.filter w)).insertionSort keyLe).map Prod.fst).Pairwise
        (fun a b : String => a ≠ b) := hnodup
    exact (hle.and hne).imp (fun h => lt_of_le_of_ne h.1 h.2)
  · intro e he
    rw [hdef] at he
    obtain ⟨x, hx', rfl⟩ := List.mem_map.mp he
    have hxm : x ∈ buildMonthly (db.filter w) := hperm.mem_iff.mp hx'
    have hvals := monthEntry_eq hnodup0 hxm
    refine ⟨?_, ?_, ?_⟩
    · have hkey : x.1 ∈ (buildMonthly (db.filter w)).map Prod.fst :=
        List.mem_map_of_mem Prod.fst hxm
      obtain ⟨t, hts, hkt⟩ := (buildMonthly_mem_keys _ _).mp hkey
      have hmemf := List.mem_filter.mp hts
      have hcond := hmemf.2
      rw [hw] at hcond
      simp only [Bool.and_eq_true, beq_iff_eq, decide_eq_true_eq] at hcond
      exact ⟨t, hmemf.1, hcond.1.1, hcond.1.2, hcond.2, hkt⟩
    · have h1 : x.2.1 = keyIncome (buildMonthly (db.filter w)) x.1 := hvals.1
      rw [buildMonthly_keyIncome] at h1
      have hfi : (db.filter w).filter
            (fun t => monthKey t.date == x.1 && t.transaction_type == "income")
          = db.filter (fun t => t.user_id == uid
              && decide (now - 30 * (months : Int) ≤ t.date) && decide (t.date ≤ now)
              && (monthKey t.date == x.1) && (t.transaction_type == "income")) := by
        rw [List.filter_filter]
        exact List.filter_congr (fun t _ => bool_reorder_inc _ _ _ _ _)
      rw [hfi] at h1
      exact h1
    · have h2 : x.2.2 = keyExpense (buildMonthly (db.filter w)) x.1 := hvals.2
      rw [buildMonthly_keyExpense] at h2
      have hfe : (db.filter w).filter
            (fun t => monthKey t.date == x.1 && !(t.transaction_type == "income"))
          = db.filter (fun t => t.user_id == uid
              && decide (now - 30 * (months : Int) ≤ t.date) && decide (t.date ≤ now)
              && (monthKey t.date == x.1) && (t.transaction_type == "expense")) := by
        rw [List.filter_filter]
        refine List.filter_congr (fun t ht => ?_)
        have hii : (("income" : String) == "income") = true := by decide
        have hie : (("income" : String) == "expense") = false := by decide
        have hei : (("expense" : String) == "income") = false := by decide
        have hee : (("expense" : String) == "expense") = true := by decide
        rcases htype t ht with h | h
        · rw [h]
          simp only [hii, hie, Bool.not_true, Bool.and_false, Bool.false_and]
        · rw [h]
          simp only [hei, hee, Bool.not_false, Bool.and_true]
          exact Bool.and_comm _ _
      rw [hfe] at h2
      exact h2
  · intro t ht hu hge hle2
    have hts : t ∈ db.filter w := by
      refine List.mem_filter.mpr ⟨ht, ?_⟩
      rw [hw]
      simp [hu, hge, hle2]
    have hkey : monthKey t.date ∈ (buildMonthly (db.filter w)).map Prod.fst :=
      (buildMonthly_mem_keys _ _).mpr ⟨t, hts, rfl⟩
    have hkey2 : monthKey t.date
        ∈ ((buildMonthly (db.filter w)).insertionSort keyLe).map Prod.fst := by
      rw [List.Perm.mem_iff (hperm.map Prod.fst)]
      exact hkey
    obtain ⟨x, hx', hx1⟩ := List.mem_map.mp hkey2
    rw [hdef]
    exact ⟨⟨x.1, x.2.1, x.2.2⟩, List.mem_map.mpr ⟨x, hx', rfl⟩, hx1⟩

theorem sum_filter_split (l : List Transaction) (p q : Transaction → Bool)
    (f : Transaction → ℚ) :
    ((l.filter p).map f).sum
      = ((l.filter (fun t => p t && q t)).map f).sum
        + ((l.filter (fun t => p t && !q t)).map f).sum := by
  induction l with
  | nil => simp
  | cons a l ih =>
    by_cases hp : p a <;> by_cases hq : q a <;>
      (simp [List.filter_cons, hp, hq, ih]; try ring)

theorem bool_reorder3 (u i e : Bool) : ((i && e) && u) = ((u && i) && e) := by
  cases u <;> cases i <;> cases e <;> rfl

/-- C10 counterexample: a single zero-amount transaction of type `transfer`
lands in the expenses bucket of the monthly summary and in neither dashboard
total, yet the expense figures reported by the two endpoints are both 0, so
they do not disagree. -/
theorem c10_counterexample :
    (⟨1, 0, "misc", none, "transfer", 19742, 0, 1⟩ : Transaction).transaction_type ≠ "income"
    ∧ (⟨1, 0, "misc", none, "transfer", 19742, 0, 1⟩
        : Transaction).transaction_type ≠ "expense"
    ∧ get_monthly_summary [⟨1, 0, "misc", none, "transfer", 19742, 0, 1⟩] 1 19750 1
        = [⟨"2024-01", 0, 0⟩]
    ∧ get_dashboard_stats [⟨1, 0, "misc", none, "transfer", 19742, 0, 1⟩] 1 = ⟨0, 0, 0, 1⟩
    ∧ ((get_monthly_summary [⟨1, 0, "misc", none, "transfer", 19742, 0, 1⟩] 1 19750 1).map
          (fun e => e.expenses)).sum
      = (get_dashboard_stats [⟨1, 0, "misc", none, "transfer", 19742, 0, 1⟩]
          1).total_expenses := by
  have hmk : monthKey 19742 = "2024-01" := by decide
  refine ⟨by simp, by simp, ?_, ?_, ?_⟩
  · norm_num [get_monthly_summary, buildMonthly, addMonthly, hmk,
      eq_false (by decide : ¬(("transfer" : String) = "income"))]
  · norm_num [get_dashboard_stats,
      (by decide : (("transfer" : String) == "income") = false),
      (by decide : (("transfer" : String) == "expense") = false)]
  · norm_num [get_monthly_summary, get_dashboard_stats, buildMonthly, addMonthly, hmk,
      eq_false (by decide : ¬(("transfer" : String) = "income")),
      (by decide : (("transfer" : String) == "income") = false),
      (by decide : (("transfer" : String) == "expense") = false)]

/-- C10 (amended): a transaction typed neither `income` nor `expense` is added
to its month's expenses by the monthly summary while the dashboard excludes it
from both totals; over a window covering all of the owner's rows the monthly
expense total exceeds the dashboard expense total by exactly the sum of such
rows' amounts, so the two reports disagree whenever that sum is nonzero (a
zero sum, e.g. a single zero-amount mistyped row, leaves them equal). -/
theorem c10_mistyped_rows (db : List Transaction) (uid : Nat) (now : DateTime) (months : Nat)
    (hwin : ∀ t ∈ db, t.user_id = uid →
      (now - 30 * (months : Int) ≤ t.date ∧ t.date ≤ now)) :
    ((get_monthly_summary db uid now months).map (fun e => e.expenses)).sum
      = (get_dashboard_stats db uid).total_expenses
        + ((db.filter (fun t => t.user_id == uid && !(t.transaction_type == "income")
            && !(t.transaction_type == "expense"))).map (fun t => t.amount)).sum
    ∧ (((db.filter (fun t => t.user_id == uid && !(t.transaction_type == "income")
            && !(t.transaction_type == "expense"))).map (fun t => t.amount)).sum ≠ 0 →
        ((get_monthly_summary db uid now months).map (fun e => e.expenses)).sum
          ≠ (get_dashboard_stats db uid).total_expenses) := by
  set w : Transaction → Bool := fun t =>
    t.user_id == uid && decide (now - 30 * (months : Int) ≤ t.date) && decide (t.date ≤ now)
    with hw
  have hfw : db.filter w = db.filter (fun t => t.user_id == uid) := by
    refine List.filter_congr (fun t ht => ?_)
    rw [hw]
    by_cases hu : t.user_id = uid
    · have hb : (t.user_id == uid) = true := by simpa using hu
      have := hwin t ht hu
      simp [hb, this.1, this.2]
    · have hb : (t.user_id == uid) = false := by simpa using hu
      simp [hb]
  have hmexp : ((get_monthly_summary db uid now months).map (fun e => e.expenses)).sum
      = (((db.filter (fun t => t.user_id == uid)).filter
          (fun t => !(t.transaction_type == "income"))).map (fun t => t.amount)).sum := by
    have h1 : (get_monthly_summary db uid now months).map (fun e => e.expenses)
        = ((buildMonthly (db.filter w)).insertionSort keyLe).map (fun e => e.2.2) := by
      rw [show get_monthly_summary db uid now months
          = ((buildMonthly (db.filter w)).insertionSort keyLe).map
              (fun e => ⟨e.1, e.2.1, e.2.2⟩) from rfl, List.map_map]
      exact List.map_congr_left (fun e _ => rfl)
    rw [h1, ((List.perm_insertionSort keyLe _).map (fun e => e.2.2)).sum_eq,
      buildMonthly_expense_total, hfw]
  have hsplit := sum_filter_split (db.filter (fun t => t.user_id == uid))
    (fun t => !(t.transaction_type == "income")) (fun t => t.transaction_type == "expense")
    (fun t => t.amount)
  have hdash : (((db.filter (fun t => t.user_id == uid)).filter
        (fun t => !(t.transaction_type == "income") && (t.transaction_type == "expense"))).map
        (fun t => t.amount)).sum
      = (get_dashboard_stats db uid).total_expenses := by
    have hc : (db.filter (fun t => t.user_id == uid)).filter
          (fun t => !(t.transaction_type == "income") && (t.transaction_type == "expense"))
        = (db.filter (fun t => t.user_id == uid)).filter
          (fun t => t.transaction_type == "expense") := by
      refine List.filter_congr (fun t _ => ?_)
      by_cases he : t.transaction_type = "expense"
      · rw [he]
        decide
      · have hb : (t.transaction_type == "expense") = false := by simpa using he
        simp [hb]
    rw [hc]
    rfl
  have hodd : (((db.filter (fun t => t.user_id == uid)).filter
        (fun t => !(t.transaction_type == "income")
          && !(t.transaction_type == "expense"))).map (fun t => t.amount)).sum
      = ((db.filter (fun t => t.user_id == uid && !(t.transaction_type == "income")
          && !(t.transaction_type == "expense"))).map (fun t => t.amount)).sum := by
    rw [List.filter_filter]
    congr 1
    refine congrArg _ (List.filter_congr (fun t _ => ?_))
    exact bool_reorder3 _ _ _
  have hmain : ((get_monthly_summary db uid now months).map (fun e => e.expenses)).sum
      = (get_dashboard_stats db uid).total_expenses
        + ((db.filter (fun t => t.user_id == uid && !(t.transaction_type == "income")
            && !(t.transaction_type == "expense"))).map (fun t => t.amount)).sum := by
    rw [hmexp, hsplit, hdash, hodd]
  refine ⟨hmain, fun h0 heq => h0 ?_⟩
  rw [heq] at hmain
  linarith

/-- C10 witness: on a one-row table holding a `transfer` of amount 5 inside the
window, the monthly expense total exceeds the dashboard expense total by
exactly that 5. -/
theorem c10_witness :
    ((get_monthly_summary [⟨1, 5, "misc", none, "transfer", 19742, 0, 1⟩] 1 19750 1).map
        (fun e => e.expenses)).sum
      = (get_dashboard_stats [⟨1, 5, "misc", none, "transfer", 19742, 0, 1⟩]
          1).total_expenses
        + ((([⟨1, 5, "misc", none, "transfer", 19742, 0, 1⟩] : List Transaction).filter
            (fun t => t.user_id == 1 && !(t.transaction_type == "income")
              && !(t.transaction_type == "expense"))).map (fun t => t.amount)).sum :=
  (c10_mistyped_rows [⟨1, 5, "misc", none, "transfer", 19742, 0, 1⟩] 1 19750 1
    (by
      intro t ht hu
      rcases List.mem_singleton.mp ht with rfl
      exact ⟨by decide, by decide⟩)).1

/-- The modelled hash is injective, so verification accepts exactly the hashed
password. -/
theorem get_password_hash_inj {a b : String} (h : get_password_hash a = get_password_hash b) :
    a = b := by
  have h2 : ("hashed:" ++ a).data = ("hashed:" ++ b).data := congrArg String.data h
  rw [String.data_append, String.data_append] at h2
  exact String.ext (List.append_cancel_left h2)

/-- C8: a signup whose email is already registered fails with 400 and creates
no user row; a signup with a fresh email succeeds and appends exactly one
account, after which login with the correct password yields a bearer token and
login with any wrong password fails with 401. -/
theorem c8_signup_login (db : List User) (email full_name password : String)
    (fresh_id : Nat) (now : DateTime) :
    ((∃ u ∈ db, u.email = email) →
      signup db email full_name password fresh_id now = (Except.error 400, db))
    ∧ ((∀ u ∈ db, u.email ≠ email) →
      ∃ u : User,
        signup db email full_name password fresh_id now = (Except.ok u, db ++ [u])
        ∧ u.email = email ∧ u.full_name = full_name ∧ u.is_active = true ∧ u.id = fresh_id
        ∧ u.hashed_password = get_password_hash password
        ∧ login (db ++ [u]) email password = Except.ok (create_access_token email)
        ∧ (∀ wrong : String, wrong ≠ password →
            login (db ++ [u]) email wrong = Except.error 401)) := by
  constructor
  · rintro ⟨u0, hu0, he⟩
    have hsome : (db.find? (fun u => u.email == email)).isSome :=
      List.find?_isSome.mpr ⟨u0, hu0, by simpa using he⟩
    obtain ⟨v, hv⟩ := Option.isSome_iff_exists.mp hsome
    simp only [signup, get_user_by_email, hv]
  · intro hfree
    have hnone : db.find? (fun u => u.email == email) = none := by
      rw [List.find?_eq_none]
      intro x hx
      simpa using hfree x hx
    refine ⟨{ id := fresh_id, email := email,
              hashed_password := get_password_hash password,
              full_name := full_name, is_active := true, created_at := now },
      ?_, rfl, rfl, rfl, rfl, rfl, ?_, ?_⟩
    · simp only [signup, get_user_by_email, hnone, create_user]
    · have hfind : get_user_by_email
          (db ++ [{ id := fresh_id, email := email,
                    hashed_password := get_password_hash password,
                    full_name := full_name, is_active := true, created_at := now }]) email
          = some { id := fresh_id, email := email,
                   hashed_password := get_password_hash password,
                   full_name := full_name, is_active := true, created_at := now } := by
        simp only [get_user_by_email, List.find?_append, hnone, Option.none_or]
        exact List.find?_cons_of_pos _ (by simp)
      simp only [login, authenticate_user, hfind, verify_password, beq_self_eq_true, if_pos]
    · intro wrong hwrong
      have hfind : get_user_by_email
          (db ++ [{ id := fresh_id, email := email,
                    hashed_password := get_password_hash password,
                    full_name := full_name, is_active := true, created_at := now }]) email
          = some { id := fresh_id, email := email,
                   hashed_password := get_password_hash password,
                   full_name := full_name, is_active := true, created_at := now } := by
        simp only [get_user_by_email, List.find?_append, hnone, Option.none_or]
        exact List.find?_cons_of_pos _ (by simp)
      have hne : get_password_hash password ≠ get_password_hash wrong :=
        fun hh => hwrong (get_password_hash_inj hh).symm
      have hb : (get_password_hash password == get_password_hash wrong) = false := by
        simpa using hne
      simp only [login, authenticate_user, hfind, verify_password, hb, Bool.false_eq_true,
        if_false, if_neg]

/-- C8 witness: on the empty user table, signup with a fresh email succeeds,
login with the right password returns the token, a wrong password gives 401. -/
theorem c8_witness :
    signup [] "a@example.com" "Ada" "pw" 1 0
      = (Except.ok (⟨1, "a@example.com", get_password_hash "pw", "Ada", true, 0⟩ : User),
         [⟨1, "a@example.com", get_password_hash "pw", "Ada", true, 0⟩])
    ∧ login [⟨1, "a@example.com", get_password_hash "pw", "Ada", true, 0⟩]
        "a@example.com" "pw" = Except.ok (create_access_token "a@example.com")
    ∧ login [⟨1, "a@example.com", get_password_hash "pw", "Ada", true, 0⟩]
        "a@example.com" "nope" = Except.error 401 := by
  obtain ⟨u, h1, h2, h3, h4, h5, h6, h7, h8⟩ :=
    (c8_signup_login [] "a@example.com" "Ada" "pw" 1 0).2 (by simp)
  have hu : u = ⟨1, "a@example.com", get_password_hash "pw", "Ada", true, 0⟩ := by
    have hfst := congrArg Prod.fst h1
    have : Except.ok u = (signup [] "a@example.com" "Ada" "pw" 1 0).1 := hfst.symm
    rw [show (signup [] "a@example.com" "Ada" "pw" 1 0).1
        = Except.ok (⟨1, "a@example.com", get_password_hash "pw", "Ada", true, 0⟩ : User)
      from rfl] at this
    exact Except.ok.inj this
  subst hu
  exact ⟨by simpa using h1, h7, h8 "nope" (by decide)⟩

/-- C1 witness: user 1 cannot see or touch the single transaction of user 2. -/
theorem c1_witness :
    (([⟨5, 7, "misc", none, "expense", 100, 0, 2⟩] : List Transaction).map
        Transaction.id).Nodup
    ∧ (⟨5, 7, "misc", none, "expense", 100, 0, 2⟩ : Transaction).user_id ≠ 1
    ∧ get_transaction [⟨5, 7, "misc", none, "expense", 100, 0, 2⟩] 5 1 = none
    ∧ update_transaction [⟨5, 7, "misc", none, "expense", 100, 0, 2⟩] 5
        TransactionUpdate.empty 1 = (none, [⟨5, 7, "misc", none, "expense", 100, 0, 2⟩])
    ∧ delete_transaction [⟨5, 7, "misc", none, "expense", 100, 0, 2⟩] 5 1
        = (none, [⟨5, 7, "misc", none, "expense", 100, 0, 2⟩]) := by
  have h := c1_owner_isolation [⟨5, 7, "misc", none, "expense", 100, 0, 2⟩] 1
    ⟨5, 7, "misc", none, "expense", 100, 0, 2⟩ TransactionUpdate.empty 0 100 none none none
    none "expense" 0 6 (by simp) (List.mem_singleton.mpr rfl) (by decide)
  exact ⟨by simp, by decide, h.1, h.2.1, h.2.2.1⟩

/-- C4 witness: one in-window income row yields a strictly ascending month
list. -/
theorem c4_witness :
    ((get_monthly_summary [⟨1, 100, "salary", none, "income", 19737, 0, 1⟩] 1 19760 2).map
        (fun e => e.month)).Pairwise (· < ·) :=
  (c4_monthly_summary [⟨1, 100, "salary", none, "income", 19737, 0, 1⟩] 1 19760 2
    (by decide)
    (by
      intro t ht
      rcases List.mem_singleton.mp ht with rfl
      exact Or.inl rfl)).1

/-- C5 witness: the empty patch on an owned row returns it and leaves the
table unchanged. -/
theorem c5_witness :
    update_transaction [⟨3, 9, "food", none, "expense", 50, 4, 7⟩] 3
        TransactionUpdate.empty 7
      = (some ⟨3, 9, "food", none, "expense", 50, 4, 7⟩,
         [⟨3, 9, "food", none, "expense", 50, 4, 7⟩]) :=
  (c5_partial_update [⟨3, 9, "food", none, "expense", 50, 4, 7⟩]
    ⟨3, 9, "food", none, "expense", 50, 4, 7⟩ 7 TransactionUpdate.empty
    (by simp) (List.mem_singleton.mpr rfl) rfl).2.2.2.2.2.2.2.2.2

/-- C6 witness: with a non-empty category filter the listing is sorted by
occurrence date descending. -/
theorem c6_witness :
    (get_transactions [⟨1, 40, "food", none, "expense", 19742, 0, 1⟩] 1 0 100
        (some "food") none none none).Sorted dateDesc := by
  obtain ⟨full, h1, h2, h3, h4, h5, h6⟩ :=
    c6_list_filters [⟨1, 40, "food", none, "expense", 19742, 0, 1⟩] 1 0 100
      (some "food") none none none (by decide) (by decide)
  exact h4

end Clarity
